import Mathlib

/-!
Shallow embedding of `src/src/nfa/accelcompile.cpp`: the acceleration-scheme
selector of the pattern-matching engine's build phase.

Modelling conventions:
* A `CharReach` (a bitset over the 256 byte values, defined outside `src/`) is
  embedded as a duplicate-free list of naturals below 256, sorted ascending so
  that `find_first` is the head.  Its operations `all`, `none`, `count` and
  `find_first` become `crAll`, `crNone`, `List.length` and `List.headD 0`.
* A `flat_set<pair<u8, u8>>` is embedded as a duplicate-free list of pairs of
  naturals below 256, sorted in lexicographic order so that `begin()` is the
  head.
* The external mask builders (shufti, truffle, double shufti) are out of scope
  per the spec; they are passed in as a `Builders` record of oracles.
* `ACCEL_MAX_STOP_CHAR` comes from a header outside `src/`; it is passed as an
  explicit parameter `maxStopChar`.
* `verify_u8` (outside `src/`) fails fatally when its argument exceeds 255;
  fatal failure is embedded as `Option.none` of the surrounding function.
* The `AccelAux` union becomes an inductive type, one constructor per
  `accel_type` tag, each carrying the fields the code writes for that tag.
-/

set_option maxRecDepth 8192

namespace AccelCompile

/-- Modelled from the spec: the `CASE_CLEAR` mask, defined in a header outside
`src/`; ANDing a byte with it masks off the ASCII case bit (0x20). -/
def CASE_CLEAR : Nat := 0xdf

/-- Tagged scheme descriptor: the `AccelAux` union of `accel.h` (its layout is
outside `src/`; the constructors carry exactly the fields `accelcompile.cpp`
writes under each `accel_type` tag). -/
inductive AccelAux where
  | none
  | red_tape (offset : Nat)
  | verm (offset : Nat) (c : Nat)
  | verm_nocase (offset : Nat) (c : Nat)
  | shufti (offset : Nat) (lo : Nat) (hi : Nat)
  | truffle (offset : Nat) (mask1 : Nat) (mask2 : Nat)
  | dverm (offset : Nat) (c1 : Nat) (c2 : Nat)
  | dverm_nocase (offset : Nat) (c1 : Nat) (c2 : Nat)
  | dshufti (offset : Nat) (lo1 : Nat) (hi1 : Nat) (lo2 : Nat) (hi2 : Nat)
  deriving DecidableEq, Repr

/-- Reading `aux->generic.offset`: every non-`none` variant stores its offset
in the same leading field of the union. -/
def AccelAux.offsetVal : AccelAux → Option Nat
  | AccelAux.none => Option.none
  | AccelAux.red_tape o => some o
  | AccelAux.verm o _ => some o
  | AccelAux.verm_nocase o _ => some o
  | AccelAux.shufti o _ _ => some o
  | AccelAux.truffle o _ _ => some o
  | AccelAux.dverm o _ _ => some o
  | AccelAux.dverm_nocase o _ _ => some o
  | AccelAux.dshufti o _ _ _ _ => some o

/-- Test `aux->accel_type == ACCEL_NONE`. -/
def AccelAux.isNone : AccelAux → Bool
  | AccelAux.none => true
  | _ => false

/-- Test whether the descriptor is one of the double-byte variants
(`ACCEL_DVERM`, `ACCEL_DVERM_NOCASE`, `ACCEL_DSHUFTI`). -/
def AccelAux.isDoubleVariant : AccelAux → Bool
  | AccelAux.dverm _ _ _ => true
  | AccelAux.dverm_nocase _ _ _ => true
  | AccelAux.dshufti _ _ _ _ _ => true
  | _ => false

/-- The `AccelInfo` input record (stop-set description). -/
structure AccelInfo where
  single_stops : List Nat
  single_offset : Nat
  double_stop1 : List Nat
  double_stop2 : List (Nat × Nat)
  double_offset : Nat
  deriving DecidableEq, Repr

/-- Bitset test `CharReach::all()`: every one of the 256 byte values is
present. -/
def crAll (l : List Nat) : Bool :=
  (List.range 256).all (fun b => l.contains b)

/-- Bitset test `CharReach::none()`: no byte value is present. -/
def crNone (l : List Nat) : Bool :=
  l.isEmpty

/-- Modelled from the spec: `CharReach::isCaselessChar`, defined outside
`src/`.  Per the spec's words it recognises a two-member stop set whose two
bytes are the upper- and lower-case variants of one letter; on the sorted list
embedding the upper-case byte comes first. -/
def isCaselessChar (l : List Nat) : Bool :=
  match l with
  | [a, b] => decide (65 ≤ a ∧ a ≤ 90 ∧ b = a + 32)
  | _ => false

/-- External mask builders (shufti, truffle, double shufti), out of scope per
the spec, passed as oracles.  `shuftiBuildMasks` may fail (the C version
returns -1); the other two always succeed. -/
structure Builders where
  shuftiBuildMasks : List Nat → Option (Nat × Nat)
  truffleBuildMasks : List Nat → Nat × Nat
  shuftiBuildDoubleMasks : List Nat → List (Nat × Nat) → Nat × Nat × Nat × Nat

/-- A concrete oracle record used for evaluating the model on closed inputs:
its shufti builder always declines. -/
def decliningBuilders : Builders where
  shuftiBuildMasks := fun _ => Option.none
  truffleBuildMasks := fun _ => (0, 0)
  shuftiBuildDoubleMasks := fun _ _ => (0, 0, 0, 0)

/-- The `buildAccelSingle` routine of `accelcompile.cpp`. -/
def buildAccelSingle (maxStopChar : Nat) (B : Builders) (info : AccelInfo) :
    AccelAux :=
  if crAll info.single_stops then
    AccelAux.none
  else
    let outs := info.single_stops.length
    let offset := info.single_offset
    if outs == 1 then
      AccelAux.verm offset (info.single_stops.headD 0)
    else if outs == 2 && isCaselessChar info.single_stops then
      AccelAux.verm_nocase offset (info.single_stops.headD 0 &&& CASE_CLEAR)
    else
      match B.shuftiBuildMasks info.single_stops with
      | some m => AccelAux.shufti offset m.1 m.2
      | Option.none =>
        if outs ≤ maxStopChar then
          let m := B.truffleBuildMasks info.single_stops
          AccelAux.truffle offset m.1 m.2
        else
          AccelAux.none

/-- The `isCaselessDouble` predicate of `accelcompile.cpp`. -/
def isCaselessDouble (stop : List (Nat × Nat)) : Bool :=
  if stop.length != 4 then
    false
  else
    let a := (stop.headD (0, 0)).1 &&& CASE_CLEAR
    let b := (stop.headD (0, 0)).2 &&& CASE_CLEAR
    stop.all (fun p => (p.1 &&& CASE_CLEAR == a) && (p.2 &&& CASE_CLEAR == b))

/-- The `buildAccelDouble` routine of `accelcompile.cpp`.  The result is
`Option.none` exactly when `verify_u8` fails fatally (double offset above
255); `some AccelAux.none` is an ordinary declination. -/
def buildAccelDouble (B : Builders) (info : AccelInfo) : Option AccelAux :=
  let outs1 := info.double_stop1.length
  let outs2 := info.double_stop2.length
  if 255 < info.double_offset then
    Option.none
  else
    let offset := info.double_offset
    some (
      if outs2 == 0 then
        AccelAux.none
      else if outs1 == 0 && outs2 == 1 then
        AccelAux.dverm offset (info.double_stop2.headD (0, 0)).1
          (info.double_stop2.headD (0, 0)).2
      else if outs1 == 0 && isCaselessDouble info.double_stop2 then
        AccelAux.dverm_nocase offset
          ((info.double_stop2.headD (0, 0)).1 &&& CASE_CLEAR)
          ((info.double_stop2.headD (0, 0)).2 &&& CASE_CLEAR)
      else if outs1 + outs2 ≤ 8 then
        if outs1 < outs2 && outs1 ≤ 2 then
          let m := B.shuftiBuildDoubleMasks info.double_stop1 info.double_stop2
          AccelAux.dshufti offset m.1 m.2.1 m.2.2.1 m.2.2.2
        else
          AccelAux.none
      else
        AccelAux.none)

/-- The `buildAccelAux` entry point of `accelcompile.cpp`: returns the final
descriptor together with the boolean "acceleration available"; `Option.none`
is a fatal `verify_u8` failure inside the double-byte selector. -/
def buildAccelAux (maxStopChar : Nat) (B : Builders) (info : AccelInfo) :
    Option (AccelAux × Bool) :=
  let first : Option AccelAux :=
    if crNone info.single_stops then
      some (AccelAux.red_tape info.single_offset)
    else
      buildAccelDouble B info
  match first with
  | Option.none => Option.none
  | some aux =>
    let aux2 := if aux.isNone then buildAccelSingle maxStopChar B info else aux
    some (aux2, !aux2.isNone)

/-! Helper lemmas. -/

/-- A double-byte variant is never the `none` tag. -/
theorem isDoubleVariant_isNone {a : AccelAux} (h : a.isDoubleVariant = true) :
    a.isNone = false := by
  cases a <;> simp_all [AccelAux.isDoubleVariant, AccelAux.isNone]

/-- Any result of the single-byte selector is either a declination or carries
the single offset. -/
theorem buildAccelSingle_offset (m : Nat) (B : Builders) (info : AccelInfo)
    (a : AccelAux) (h : buildAccelSingle m B info = a) :
    a = AccelAux.none ∨ a.offsetVal = some info.single_offset := by
  unfold buildAccelSingle at h
  dsimp only at h
  repeat' split at h
  all_goals subst h
  all_goals simp [AccelAux.offsetVal]

/-- Any non-fatal result of the double-byte selector is either a declination
or carries the double offset, and in the latter case it is one of the
double-byte variants. -/
theorem buildAccelDouble_offset (B : Builders) (info : AccelInfo)
    (a : AccelAux) (h : buildAccelDouble B info = some a) :
    a = AccelAux.none ∨
      (a.offsetVal = some info.double_offset ∧ a.isDoubleVariant = true) := by
  unfold buildAccelDouble at h
  dsimp only at h
  split at h
  · exact absurd h (by simp)
  · rw [Option.some_inj] at h
    repeat' split at h
    all_goals rw [← h]
    all_goals simp [AccelAux.offsetVal, AccelAux.isDoubleVariant]

/-- C1: for every input, whenever `buildAccelAux` returns a descriptor whose
variant is not `None`, the descriptor's offset field equals the input's
`single_offset` or the input's `double_offset`. -/
theorem C1_offset_matches_input (maxStopChar : Nat) (B : Builders)
    (info : AccelInfo) (aux : AccelAux) (avail : Bool)
    (h : buildAccelAux maxStopChar B info = some (aux, avail))
    (hn : aux ≠ AccelAux.none) :
    aux.offsetVal = some info.single_offset ∨
      aux.offsetVal = some info.double_offset := by
  unfold buildAccelAux at h
  dsimp only at h
  by_cases hc : crNone info.single_stops = true
  · rw [if_pos hc] at h
    dsimp only at h
    rw [Option.some_inj] at h
    have : aux = AccelAux.red_tape info.single_offset := by
      have := congrArg Prod.fst h
      simpa [AccelAux.isNone] using this.symm
    subst this
    left
    simp [AccelAux.offsetVal]
  · rw [if_neg hc] at h
    cases hd : buildAccelDouble B info with
    | none => rw [hd] at h; exact absurd h (by simp)
    | some a =>
      rw [hd] at h
      dsimp only at h
      rw [Option.some_inj] at h
      have haux : aux = if a.isNone then buildAccelSingle maxStopChar B info
          else a := (congrArg Prod.fst h).symm
      rcases buildAccelDouble_offset B info a hd with h0 | ⟨hoff, hdv⟩
      · subst h0
        simp only [AccelAux.isNone, if_true] at haux
        rcases buildAccelSingle_offset maxStopChar B info aux haux.symm
          with h1 | h1
        · exact absurd h1 hn
        · exact Or.inl h1
      · rw [isDoubleVariant_isNone hdv] at haux
        simp only [Bool.false_eq_true, if_false] at haux
        subst haux
        exact Or.inr hoff

/-- C1 witness: a concrete run in which the chosen scheme's offset equals the
input's single offset. -/
theorem C1_offset_matches_input_witness :
    buildAccelAux 160 decliningBuilders
        ⟨[0x41], 3, [], [], 0⟩ = some (AccelAux.verm 3 0x41, true) ∧
      ((AccelAux.verm 3 0x41).offsetVal = some 3 ∨
        (AccelAux.verm 3 0x41).offsetVal = some 0) :=
  ⟨by decide,
    C1_offset_matches_input 160 decliningBuilders ⟨[0x41], 3, [], [], 0⟩
      (AccelAux.verm 3 0x41) true (by decide) (by decide)⟩

/-- C2: whenever `single_stops` is empty, the selector returns the red-tape
scheme at the single offset and reports acceleration available, regardless of
all double-byte fields. -/
theorem C2_empty_single_stops_red_tape (maxStopChar : Nat) (B : Builders)
    (info : AccelInfo) (h : info.single_stops = []) :
    buildAccelAux maxStopChar B info =
      some (AccelAux.red_tape info.single_offset, true) := by
  unfold buildAccelAux
  have hc : crNone info.single_stops = true := by
    simp [crNone, h]
  simp [hc, AccelAux.isNone]

/-- C2 witness: concrete run with empty `single_stops` and arbitrary
double-byte data (including an out-of-range double offset, which is never
examined on this path). -/
theorem C2_empty_single_stops_red_tape_witness :
    buildAccelAux 160 decliningBuilders
        ⟨[], 4, [0x10], [(0x41, 0x42)], 999⟩ =
      some (AccelAux.red_tape 4, true) :=
  C2_empty_single_stops_red_tape 160 decliningBuilders
    ⟨[], 4, [0x10], [(0x41, 0x42)], 999⟩ rfl

/-- Lifting a non-declining double-selector result through `buildAccelAux`:
the double result is returned as is, with "accelerable" true. -/
theorem buildAccelAux_of_double (maxStopChar : Nat) (B : Builders)
    (info : AccelInfo) (a : AccelAux) (hs : info.single_stops ≠ [])
    (hd : buildAccelDouble B info = some a) (hn : a.isNone = false) :
    buildAccelAux maxStopChar B info = some (a, true) := by
  unfold buildAccelAux
  dsimp only
  rw [if_neg (by simp [crNone, hs])]
  rw [hd]
  dsimp only
  rw [hn]
  simp [hn]

/-- Lifting a declining double-selector result through `buildAccelAux`: the
single-byte selector decides the outcome. -/
theorem buildAccelAux_of_double_none (maxStopChar : Nat) (B : Builders)
    (info : AccelInfo) (hs : info.single_stops ≠ [])
    (hd : buildAccelDouble B info = some AccelAux.none) :
    buildAccelAux maxStopChar B info =
      some (buildAccelSingle maxStopChar B info,
        !(buildAccelSingle maxStopChar B info).isNone) := by
  unfold buildAccelAux
  dsimp only
  rw [if_neg (by simp [crNone, hs])]
  rw [hd]
  dsimp only
  simp [AccelAux.isNone]

/-- C7: with the double offset in 8-bit range, an empty pair set makes the
double-byte selector decline immediately, and an empty first-byte set with
exactly one pair yields the exact-pair scheme carrying the double offset and
that pair's two bytes. -/
theorem C7_double_empty_and_sole_pair (B : Builders) (info : AccelInfo)
    (hoff : info.double_offset ≤ 255) :
    (info.double_stop2 = [] →
      buildAccelDouble B info = some AccelAux.none) ∧
    (∀ b1 b2, info.double_stop1 = [] → info.double_stop2 = [(b1, b2)] →
      buildAccelDouble B info =
        some (AccelAux.dverm info.double_offset b1 b2)) := by
  constructor
  · intro h2
    unfold buildAccelDouble
    dsimp only
    rw [if_neg (by omega)]
    simp [h2]
  · intro b1 b2 h1 h2
    unfold buildAccelDouble
    dsimp only
    rw [if_neg (by omega)]
    simp [h1, h2]

/-- C7 witness: the sole pair `(0x41, 0x42)` at double offset 5 yields
`ExactPair{offset := 5, 0x41, 0x42}`, and an empty pair set declines. -/
theorem C7_double_empty_and_sole_pair_witness :
    buildAccelDouble decliningBuilders ⟨[0x30], 0, [], [(0x41, 0x42)], 5⟩ =
        some (AccelAux.dverm 5 0x41 0x42) ∧
      buildAccelDouble decliningBuilders ⟨[0x30], 0, [0x10], [], 5⟩ =
        some AccelAux.none :=
  ⟨(C7_double_empty_and_sole_pair decliningBuilders
      ⟨[0x30], 0, [], [(0x41, 0x42)], 5⟩ (by decide)).2 0x41 0x42 rfl rfl,
    (C7_double_empty_and_sole_pair decliningBuilders
      ⟨[0x30], 0, [0x10], [], 5⟩ (by decide)).1 rfl⟩

/-- C10: whenever `single_stops` is non-empty the double-byte selector runs
and checks the 8-bit range of the double offset before the empty-pair-set
declination test, so an out-of-range double offset is fatal even with no
pairs at all; within range the check never fails. -/
theorem C10_verify_u8_before_decline (maxStopChar : Nat) (B : Builders)
    (info : AccelInfo) :
    (info.single_stops ≠ [] → 255 < info.double_offset →
      buildAccelAux maxStopChar B info = Option.none) ∧
    (info.double_offset ≤ 255 →
      ∃ a, buildAccelDouble B info = some a) := by
  constructor
  · intro hs hbig
    unfold buildAccelAux
    dsimp only
    rw [if_neg (by simp [crNone, hs])]
    have hd : buildAccelDouble B info = Option.none := by
      unfold buildAccelDouble
      dsimp only
      rw [if_pos hbig]
    rw [hd]
  · intro hoff
    unfold buildAccelDouble
    dsimp only
    rw [if_neg (by omega)]
    exact ⟨_, rfl⟩

/-- C10 witness: double offset 300 with an empty pair set aborts, while
double offset 5 passes the range check. -/
theorem C10_verify_u8_before_decline_witness :
    buildAccelAux 160 decliningBuilders ⟨[0x30], 0, [], [], 300⟩ =
        Option.none ∧
      ∃ a, buildAccelDouble decliningBuilders ⟨[0x30], 0, [], [], 5⟩ =
        some a :=
  ⟨(C10_verify_u8_before_decline 160 decliningBuilders
      ⟨[0x30], 0, [], [], 300⟩).1 (by decide) (by decide),
    (C10_verify_u8_before_decline 160 decliningBuilders
      ⟨[0x30], 0, [], [], 5⟩).2 (by decide)⟩

/-- C5: once the exact-pair and caseless-pair patterns are ruled out, the
double-classification-table scheme is produced exactly when
`outs1 + outs2 <= 8`, `outs1 < outs2` and `outs1 <= 2`; when the heuristic
fails the selector declines with the descriptor `None`. -/
theorem C5_double_shufti_heuristic (B : Builders) (info : AccelInfo)
    (hoff : info.double_offset ≤ 255)
    (h2 : info.double_stop2 ≠ [])
    (hnp1 : ¬(info.double_stop1.length = 0 ∧ info.double_stop2.length = 1))
    (hnp2 : ¬(info.double_stop1.length = 0 ∧
      isCaselessDouble info.double_stop2 = true)) :
    ((info.double_stop1.length + info.double_stop2.length ≤ 8 ∧
        info.double_stop1.length < info.double_stop2.length ∧
        info.double_stop1.length ≤ 2) ↔
      buildAccelDouble B info = some (AccelAux.dshufti info.double_offset
        (B.shuftiBuildDoubleMasks info.double_stop1 info.double_stop2).1
        (B.shuftiBuildDoubleMasks info.double_stop1 info.double_stop2).2.1
        (B.shuftiBuildDoubleMasks info.double_stop1 info.double_stop2).2.2.1
        (B.shuftiBuildDoubleMasks info.double_stop1
          info.double_stop2).2.2.2)) ∧
    (¬(info.double_stop1.length + info.double_stop2.length ≤ 8 ∧
        info.double_stop1.length < info.double_stop2.length ∧
        info.double_stop1.length ≤ 2) →
      buildAccelDouble B info = some AccelAux.none) := by
  have h20 : (info.double_stop2.length == 0) = false := by
    rw [beq_eq_false_iff_ne]
    exact fun hh => h2 (List.length_eq_zero.mp hh)
  have hc1 : (info.double_stop1.length == 0 &&
      info.double_stop2.length == 1) = false := by
    rw [Bool.eq_false_iff]
    intro hh
    exact hnp1 (by simpa [Bool.and_eq_true, beq_iff_eq] using hh)
  have hc2 : (info.double_stop1.length == 0 &&
      isCaselessDouble info.double_stop2) = false := by
    rw [Bool.eq_false_iff]
    intro hh
    exact hnp2 (by simpa [Bool.and_eq_true, beq_iff_eq] using hh)
  have hkey : ∀ v, buildAccelDouble B info = some v ↔
      (if info.double_stop1.length + info.double_stop2.length ≤ 8 then
        if info.double_stop1.length < info.double_stop2.length ∧
            info.double_stop1.length ≤ 2 then
          AccelAux.dshufti info.double_offset
            (B.shuftiBuildDoubleMasks info.double_stop1 info.double_stop2).1
            (B.shuftiBuildDoubleMasks info.double_stop1
              info.double_stop2).2.1
            (B.shuftiBuildDoubleMasks info.double_stop1
              info.double_stop2).2.2.1
            (B.shuftiBuildDoubleMasks info.double_stop1
              info.double_stop2).2.2.2
        else AccelAux.none
      else AccelAux.none) = v := by
    intro v
    unfold buildAccelDouble
    dsimp only
    rw [if_neg (by omega)]
    rw [Option.some_inj]
    simp only [h20, hc1, hc2, Bool.false_eq_true, if_false]
    constructor
    · intro hh
      rw [← hh]
      by_cases hA : info.double_stop1.length + info.double_stop2.length ≤ 8
      · rw [if_pos hA, if_pos hA]
        by_cases hBC : info.double_stop1.length < info.double_stop2.length ∧
            info.double_stop1.length ≤ 2
        · rw [if_pos hBC, if_pos (by simp [hBC.1, hBC.2])]
        · rw [if_neg hBC, if_neg (by simpa [Bool.and_eq_true] using hBC)]
      · rw [if_neg hA, if_neg hA]
    · intro hh
      rw [← hh]
      by_cases hA : info.double_stop1.length + info.double_stop2.length ≤ 8
      · rw [if_pos hA, if_pos hA]
        by_cases hBC : info.double_stop1.length < info.double_stop2.length ∧
            info.double_stop1.length ≤ 2
        · rw [if_pos hBC, if_pos (by simp [hBC.1, hBC.2])]
        · rw [if_neg hBC, if_neg (by simpa [Bool.and_eq_true] using hBC)]
      · rw [if_neg hA, if_neg hA]
  constructor
  · constructor
    · intro ⟨hA, hB, hC⟩
      rw [hkey]
      rw [if_pos hA, if_pos ⟨hB, hC⟩]
    · intro hh
      by_contra hnot
      rw [hkey] at hh
      by_cases hA : info.double_stop1.length + info.double_stop2.length ≤ 8
      · rw [if_pos hA] at hh
        by_cases hBC : info.double_stop1.length < info.double_stop2.length ∧
            info.double_stop1.length ≤ 2
        · exact hnot ⟨hA, hBC.1, hBC.2⟩
        · rw [if_neg hBC] at hh
          exact AccelAux.noConfusion hh
      · rw [if_neg hA] at hh
        exact AccelAux.noConfusion hh
  · intro hn
    rw [hkey]
    by_cases hA : info.double_stop1.length + info.double_stop2.length ≤ 8
    · rw [if_pos hA]
      by_cases hBC : info.double_stop1.length < info.double_stop2.length ∧
          info.double_stop1.length ≤ 2
      · exact absurd ⟨hA, hBC.1, hBC.2⟩ hn
      · rw [if_neg hBC]
    · rw [if_neg hA]

/-- C5 witness: one heuristic success (`outs1 = 1`, `outs2 = 2`) and one
heuristic failure (`outs1 = outs2 = 2`, which declines). -/
theorem C5_double_shufti_heuristic_witness :
    buildAccelDouble decliningBuilders
        ⟨[0x30], 0, [0x10], [(1, 2), (3, 4)], 6⟩ =
      some (AccelAux.dshufti 6 0 0 0 0) ∧
    buildAccelDouble decliningBuilders
        ⟨[0x30], 0, [0x10, 0x11], [(1, 2), (3, 4)], 6⟩ =
      some AccelAux.none :=
  ⟨(C5_double_shufti_heuristic decliningBuilders
        ⟨[0x30], 0, [0x10], [(1, 2), (3, 4)], 6⟩
        (by decide) (by decide) (by decide) (by decide)).1.mp
      (by decide),
    (C5_double_shufti_heuristic decliningBuilders
        ⟨[0x30], 0, [0x10, 0x11], [(1, 2), (3, 4)], 6⟩
        (by decide) (by decide) (by decide) (by decide)).2 (by decide)⟩

/-- C3 counterexample: with `single_stops` empty, the red-tape scheme wins
even though `doublePairs` is the non-empty singleton `{(0x41, 0x42)}` and the
exact-pair pattern matches, so the final result is not a double-byte
variant. -/
theorem C3_counterexample :
    (AccelInfo.double_stop2 ⟨[], 0, [], [(0x41, 0x42)], 5⟩ ≠ [] ∧
      (AccelInfo.double_stop1 ⟨[], 0, [], [(0x41, 0x42)], 5⟩).length = 0 ∧
      (AccelInfo.double_stop2 ⟨[], 0, [], [(0x41, 0x42)], 5⟩).length = 1) ∧
    buildAccelAux 160 decliningBuilders ⟨[], 0, [], [(0x41, 0x42)], 5⟩ =
      some (AccelAux.red_tape 0, true) ∧
    (AccelAux.red_tape 0).isDoubleVariant = false := by
  decide

/-- C3 (amended): when `single_stops` is non-empty and the double offset is
in 8-bit range, a non-empty pair set for which one of the three double-byte
patterns matches always makes the final result a double-byte variant. -/
theorem C3_double_priority (maxStopChar : Nat) (B : Builders)
    (info : AccelInfo) (hs : info.single_stops ≠ [])
    (hoff : info.double_offset ≤ 255)
    (h2 : info.double_stop2 ≠ [])
    (hp : (info.double_stop1.length = 0 ∧ info.double_stop2.length = 1) ∨
      (info.double_stop1.length = 0 ∧
        isCaselessDouble info.double_stop2 = true) ∨
      (info.double_stop1.length + info.double_stop2.length ≤ 8 ∧
        info.double_stop1.length < info.double_stop2.length ∧
        info.double_stop1.length ≤ 2)) :
    ∃ aux, buildAccelAux maxStopChar B info = some (aux, true) ∧
      aux.isDoubleVariant = true := by
  have h20 : (info.double_stop2.length == 0) = false := by
    rw [beq_eq_false_iff_ne]
    exact fun hh => h2 (List.length_eq_zero.mp hh)
  have hd : ∃ a, buildAccelDouble B info = some a ∧
      a.isDoubleVariant = true := by
    unfold buildAccelDouble
    dsimp only
    rw [if_neg (by omega)]
    refine ⟨_, rfl, ?_⟩
    simp only [h20, Bool.false_eq_true, if_false]
    by_cases hc1 : (info.double_stop1.length == 0 &&
        info.double_stop2.length == 1) = true
    · rw [if_pos hc1]; rfl
    · rw [if_neg hc1]
      by_cases hc2 : (info.double_stop1.length == 0 &&
          isCaselessDouble info.double_stop2) = true
      · rw [if_pos hc2]; rfl
      · rw [if_neg hc2]
        simp only [Bool.and_eq_true, beq_iff_eq] at hc1 hc2
        rcases hp with ⟨ha, hb⟩ | ⟨ha, hb⟩ | ⟨hA, hB, hC⟩
        · exact absurd ⟨ha, hb⟩ hc1
        · exact absurd ⟨ha, hb⟩ hc2
        · rw [if_pos hA, if_pos (by simp [hB, hC])]; rfl
  obtain ⟨a, hda, hdv⟩ := hd
  exact ⟨a, buildAccelAux_of_double maxStopChar B info a hs hda
    (isDoubleVariant_isNone hdv), hdv⟩

/-- C3 witness: a non-empty `single_stops` with the sole pair
`(0x41, 0x42)` produces a double-byte variant with acceleration reported. -/
theorem C3_double_priority_witness :
    ∃ aux, buildAccelAux 160 decliningBuilders
        ⟨[0x30], 0, [], [(0x41, 0x42)], 5⟩ = some (aux, true) ∧
      aux.isDoubleVariant = true :=
  C3_double_priority 160 decliningBuilders ⟨[0x30], 0, [], [(0x41, 0x42)], 5⟩
    (by decide) (by decide) (by decide) (Or.inl (by decide))

/-- Upper-case ASCII letters already have the case bit clear, so masking
with `CASE_CLEAR` leaves them unchanged. -/
theorem upper_case_clear : ∀ x, x < 91 → 65 ≤ x → x &&& CASE_CLEAR = x := by
  decide

/-- C6: a two-member `single_stops` holding the upper- and lower-case
variants of one letter yields the case-insensitive exact-byte scheme with the
case-cleared byte; a two-member `single_stops` whose bytes are not case
variants of one letter never takes that path and instead falls through to the
classification-table / bitmap stage. -/
theorem C6_single_caseless (m : Nat) (B : Builders) (info : AccelInfo)
    (x a b : Nat) :
    (info.single_stops = [x, x + 32] → 65 ≤ x → x ≤ 90 →
      buildAccelSingle m B info =
        AccelAux.verm_nocase info.single_offset x) ∧
    (info.single_stops = [a, b] → ¬(65 ≤ a ∧ a ≤ 90 ∧ b = a + 32) →
      (∃ lo hi, buildAccelSingle m B info =
          AccelAux.shufti info.single_offset lo hi) ∨
      (∃ m1 m2, buildAccelSingle m B info =
          AccelAux.truffle info.single_offset m1 m2) ∨
      buildAccelSingle m B info = AccelAux.none) := by
  constructor
  · intro hl h65 h90
    have hca : crAll [x, x + 32] = false := by
      rw [Bool.eq_false_iff]
      intro hcr
      rw [crAll, List.all_eq_true] at hcr
      have h0 := hcr 0 (by simp)
      simp at h0
      omega
    have hcc : isCaselessChar [x, x + 32] = true := by
      rw [isCaselessChar]
      simp [h65, h90]
    unfold buildAccelSingle
    dsimp only
    simp only [hl, hca, Bool.false_eq_true, if_false]
    have hlen : ([x, x + 32] : List Nat).length = 2 := rfl
    rw [hlen]
    simp only [hcc, Bool.and_true, Nat.reduceBEq, Bool.false_eq_true,
      if_false, if_true]
    have hx : x &&& CASE_CLEAR = x := upper_case_clear x (by omega) h65
    simp [List.headD, hx]
  · intro hl hnc
    have hca : crAll [a, b] = false := by
      rw [Bool.eq_false_iff]
      intro hcr
      rw [crAll, List.all_eq_true] at hcr
      have h0 := hcr 0 (by simp)
      have h1 := hcr 1 (by simp)
      have h2 := hcr 2 (by simp)
      simp at h0 h1 h2
      omega
    have hcc : isCaselessChar [a, b] = false := by
      rw [isCaselessChar]
      exact decide_eq_false_iff_not.mpr hnc
    unfold buildAccelSingle
    dsimp only
    simp only [hl, hca, Bool.false_eq_true, if_false]
    have hlen : ([a, b] : List Nat).length = 2 := rfl
    rw [hlen]
    simp only [hcc, Bool.and_false, Nat.reduceBEq, Bool.false_eq_true,
      if_false]
    cases hsh : B.shuftiBuildMasks [a, b] with
    | some mm =>
      left
      exact ⟨mm.1, mm.2, by dsimp only⟩
    | none =>
      dsimp only
      by_cases hle : 2 ≤ m
      · right; left
        rw [if_pos hle]
        exact ⟨_, _, rfl⟩
      · right; right
        rw [if_neg hle]

/-- C6 witness: `{0x41, 0x61}` yields `ExactByteCI` with byte `0x41`, while
the unrelated pair `{1, 2}` falls through (here to the bitmap stage, the
oracle declining shufti). -/
theorem C6_single_caseless_witness :
    buildAccelSingle 160 decliningBuilders ⟨[0x41, 0x61], 0, [], [], 0⟩ =
        AccelAux.verm_nocase 0 0x41 ∧
      ((∃ lo hi, buildAccelSingle 160 decliningBuilders
          ⟨[1, 2], 7, [], [], 0⟩ = AccelAux.shufti 7 lo hi) ∨
        (∃ m1 m2, buildAccelSingle 160 decliningBuilders
          ⟨[1, 2], 7, [], [], 0⟩ = AccelAux.truffle 7 m1 m2) ∨
        buildAccelSingle 160 decliningBuilders ⟨[1, 2], 7, [], [], 0⟩ =
          AccelAux.none) :=
  ⟨(C6_single_caseless 160 decliningBuilders ⟨[0x41, 0x61], 0, [], [], 0⟩
      0x41 0 0).1 rfl (by decide) (by decide),
    (C6_single_caseless 160 decliningBuilders ⟨[1, 2], 7, [], [], 0⟩
      0 1 2).2 rfl (by decide)⟩

/-- C8: when the exact and case-insensitive paths are inapplicable and the
classification-table builder declines, the single-byte selector produces the
full bitmap exactly when the stop count is at most the maximum stop-character
count, and otherwise declines; in the latter case the overall selection is
`None` whenever the double-byte selector also declined. -/
theorem C8_truffle_or_decline (m : Nat) (B : Builders) (info : AccelInfo)
    (hca : crAll info.single_stops = false)
    (h1 : info.single_stops.length ≠ 1)
    (h2 : ¬(info.single_stops.length = 2 ∧
      isCaselessChar info.single_stops = true))
    (hsh : B.shuftiBuildMasks info.single_stops = Option.none) :
    (info.single_stops.length ≤ m →
      buildAccelSingle m B info = AccelAux.truffle info.single_offset
        (B.truffleBuildMasks info.single_stops).1
        (B.truffleBuildMasks info.single_stops).2) ∧
    (m < info.single_stops.length →
      buildAccelSingle m B info = AccelAux.none) ∧
    (m < info.single_stops.length → info.single_stops ≠ [] →
      buildAccelDouble B info = some AccelAux.none →
      buildAccelAux m B info = some (AccelAux.none, false)) := by
  have hb1 : (info.single_stops.length == 1) = false :=
    beq_eq_false_iff_ne.mpr h1
  have hb2 : (info.single_stops.length == 2 &&
      isCaselessChar info.single_stops) = false := by
    rw [Bool.eq_false_iff]
    intro hh
    exact h2 (by simpa [Bool.and_eq_true, beq_iff_eq] using hh)
  have hbase : ∀ v, buildAccelSingle m B info = v ↔
      (if info.single_stops.length ≤ m then
        AccelAux.truffle info.single_offset
          (B.truffleBuildMasks info.single_stops).1
          (B.truffleBuildMasks info.single_stops).2
      else AccelAux.none) = v := by
    intro v
    unfold buildAccelSingle
    dsimp only
    simp only [hca, hb1, hb2, Bool.false_eq_true, if_false]
    rw [hsh]
  refine ⟨?_, ?_, ?_⟩
  · intro hle
    rw [hbase, if_pos hle]
  · intro hgt
    rw [hbase, if_neg (by omega)]
  · intro hgt hs hd
    rw [buildAccelAux_of_double_none m B info hs hd]
    have hnone : buildAccelSingle m B info = AccelAux.none := by
      rw [hbase, if_neg (by omega)]
    rw [hnone]
    rfl

/-- C8 witness: three stop bytes with the table builder declining give the
full bitmap under `maxStopChar = 160` and a declination (propagating to an
overall `None`) under `maxStopChar = 2`. -/
theorem C8_truffle_or_decline_witness :
    buildAccelSingle 160 decliningBuilders ⟨[1, 2, 3], 2, [], [], 0⟩ =
        AccelAux.truffle 2 0 0 ∧
      buildAccelSingle 2 decliningBuilders ⟨[1, 2, 3], 2, [], [], 0⟩ =
        AccelAux.none ∧
      buildAccelAux 2 decliningBuilders ⟨[1, 2, 3], 2, [], [], 0⟩ =
        some (AccelAux.none, false) :=
  ⟨(C8_truffle_or_decline 160 decliningBuilders ⟨[1, 2, 3], 2, [], [], 0⟩
      (by decide) (by decide) (by decide) rfl).1 (by decide),
    (C8_truffle_or_decline 2 decliningBuilders ⟨[1, 2, 3], 2, [], [], 0⟩
      (by decide) (by decide) (by decide) rfl).2.1 (by decide),
    (C8_truffle_or_decline 2 decliningBuilders ⟨[1, 2, 3], 2, [], [], 0⟩
      (by decide) (by decide) (by decide) rfl).2.2 (by decide) (by decide)
      (by decide)⟩

/-- C9: when every one of the 256 byte values is a single-byte stop and the
double-byte selector declines, the final descriptor stays `None` and
acceleration is reported unavailable. -/
theorem C9_all_stops_no_acceleration (m : Nat) (B : Builders)
    (info : AccelInfo) (hall : crAll info.single_stops = true)
    (hd : buildAccelDouble B info = some AccelAux.none) :
    buildAccelAux m B info = some (AccelAux.none, false) := by
  have hs : info.single_stops ≠ [] := by
    intro he
    rw [he] at hall
    exact absurd hall (by decide)
  have hsingle : buildAccelSingle m B info = AccelAux.none := by
    unfold buildAccelSingle
    dsimp only
    rw [if_pos hall]
  rw [buildAccelAux_of_double_none m B info hs hd, hsingle]
  rfl

/-- C9 witness: all 256 bytes as single stops with no double-byte data give
`None` and "not accelerable". -/
theorem C9_all_stops_no_acceleration_witness :
    buildAccelAux 160 decliningBuilders
        ⟨List.range 256, 4, [], [], 0⟩ = some (AccelAux.none, false) :=
  C9_all_stops_no_acceleration 160 decliningBuilders
    ⟨List.range 256, 4, [], [], 0⟩ (by decide) (by decide)

/-- Every byte is its own case-cleared value or the case toggle thereof. -/
theorem byte_caseClear_cases : ∀ v, v < 256 →
    v = v &&& CASE_CLEAR ∨ v = (v &&& CASE_CLEAR) ^^^ 32 := by
  decide

/-- Toggling the case bit does not change the case-cleared value. -/
theorem caseClear_xor32 : ∀ v, v < 256 →
    (v ^^^ 32) &&& CASE_CLEAR = v &&& CASE_CLEAR := by
  decide

/-- Case-clearing keeps a byte below 256. -/
theorem caseClear_lt : ∀ v, v < 256 → v &&& CASE_CLEAR < 256 := by
  decide

/-- Toggling the case bit changes the byte. -/
theorem xor32_ne : ∀ v, v < 256 → v ^^^ 32 ≠ v := by
  decide

/-- Head with default of a non-empty list is a member. -/
theorem headD_mem {α : Type} (l : List α) (d : α) (h : l ≠ []) :
    l.headD d ∈ l := by
  cases l <;> simp_all

/-- The four case permutations of a two-byte literal are pairwise distinct. -/
theorem four_perm_nodup (x y : Nat) (hx : x ^^^ 32 ≠ x) (hy : y ^^^ 32 ≠ y) :
    ([(x, y), (x, y ^^^ 32), (x ^^^ 32, y), (x ^^^ 32, y ^^^ 32)] :
      List (Nat × Nat)).Nodup := by
  have hx2 : x ≠ x ^^^ 32 := fun h => hx h.symm
  have hy2 : y ≠ y ^^^ 32 := fun h => hy h.symm
  simp [List.nodup_cons, List.mem_cons, Prod.ext_iff, hx, hy, hx2, hy2]

/-- A duplicate-free four-element list contained in the four case
permutations of a two-byte literal is exactly that permutation set. -/
theorem subset_four_perm_complete (stop : List (Nat × Nat)) (x y : Nat)
    (hnd : stop.Nodup) (hlen : stop.length = 4)
    (hx : x ^^^ 32 ≠ x) (hy : y ^^^ 32 ≠ y)
    (hsub : ∀ p ∈ stop, p = (x, y) ∨ p = (x, y ^^^ 32) ∨
      p = (x ^^^ 32, y) ∨ p = (x ^^^ 32, y ^^^ 32)) :
    ∀ p : Nat × Nat, p ∈ stop ↔ (p = (x, y) ∨ p = (x, y ^^^ 32) ∨
      p = (x ^^^ 32, y) ∨ p = (x ^^^ 32, y ^^^ 32)) := by
  classical
  have hcandnd := four_perm_nodup x y hx hy
  have hsubF : stop.toFinset ⊆
      ([(x, y), (x, y ^^^ 32), (x ^^^ 32, y), (x ^^^ 32, y ^^^ 32)] :
        List (Nat × Nat)).toFinset := by
    intro p hp
    rw [List.mem_toFinset] at *
    rcases hsub p hp with h | h | h | h <;> simp [h]
  have hcard1 : stop.toFinset.card = 4 := by
    rw [List.toFinset_card_of_nodup hnd, hlen]
  have hcard2 : ([(x, y), (x, y ^^^ 32), (x ^^^ 32, y),
      (x ^^^ 32, y ^^^ 32)] : List (Nat × Nat)).toFinset.card ≤ 4 := by
    have hle := List.toFinset_card_le ([(x, y), (x, y ^^^ 32), (x ^^^ 32, y),
      (x ^^^ 32, y ^^^ 32)] : List (Nat × Nat))
    simpa using hle
  have heq : stop.toFinset =
      ([(x, y), (x, y ^^^ 32), (x ^^^ 32, y), (x ^^^ 32, y ^^^ 32)] :
        List (Nat × Nat)).toFinset :=
    Finset.eq_of_subset_of_card_le hsubF (by omega)
  intro p
  constructor
  · exact hsub p
  · intro hp
    have hpc : p ∈ stop.toFinset := by
      rw [heq, List.mem_toFinset]
      rcases hp with h | h | h | h <;> simp [h]
    rw [List.mem_toFinset] at hpc
    exact hpc

/-- C4: on a well-formed pair set (duplicate-free, bytes below 256),
`isCaselessDouble` holds iff the set is exactly the four case permutations of
one two-byte literal: four members, namely the combinations of byte and
case-toggled byte in each position. -/
theorem C4_isCaselessDouble_iff (stop : List (Nat × Nat))
    (hnd : stop.Nodup)
    (hb : ∀ p ∈ stop, p.1 < 256 ∧ p.2 < 256) :
    isCaselessDouble stop = true ↔
      ∃ x y, x < 256 ∧ y < 256 ∧ stop.length = 4 ∧
        ∀ p : Nat × Nat, p ∈ stop ↔
          (p = (x, y) ∨ p = (x, y ^^^ 32) ∨ p = (x ^^^ 32, y) ∨
            p = (x ^^^ 32, y ^^^ 32)) := by
  constructor
  · intro hcd
    have hlen : stop.length = 4 := by
      by_contra hne
      rw [isCaselessDouble, if_pos (bne_iff_ne.mpr hne)] at hcd
      exact Bool.false_ne_true hcd
    have hnil : stop ≠ [] := by
      intro h
      rw [h] at hlen
      simp at hlen
    have h0mem : stop.headD (0, 0) ∈ stop := headD_mem _ _ hnil
    have hall : ∀ p ∈ stop,
        p.1 &&& CASE_CLEAR = (stop.headD (0, 0)).1 &&& CASE_CLEAR ∧
        p.2 &&& CASE_CLEAR = (stop.headD (0, 0)).2 &&& CASE_CLEAR := by
      intro p hp
      unfold isCaselessDouble at hcd
      dsimp only at hcd
      have hb4 : (stop.length != 4) = false := by
        rw [hlen]
        rfl
      simp only [hb4, Bool.false_eq_true, if_false] at hcd
      rw [List.all_eq_true] at hcd
      have := hcd p hp
      simpa [Bool.and_eq_true, beq_iff_eq] using this
    obtain ⟨h1lt, h2lt⟩ := hb _ h0mem
    have hxlt : (stop.headD (0, 0)).1 &&& CASE_CLEAR < 256 :=
      caseClear_lt _ h1lt
    have hylt : (stop.headD (0, 0)).2 &&& CASE_CLEAR < 256 :=
      caseClear_lt _ h2lt
    refine ⟨(stop.headD (0, 0)).1 &&& CASE_CLEAR,
      (stop.headD (0, 0)).2 &&& CASE_CLEAR, hxlt, hylt, hlen, ?_⟩
    have hsub : ∀ p ∈ stop,
        p = ((stop.headD (0, 0)).1 &&& CASE_CLEAR,
          (stop.headD (0, 0)).2 &&& CASE_CLEAR) ∨
        p = ((stop.headD (0, 0)).1 &&& CASE_CLEAR,
          ((stop.headD (0, 0)).2 &&& CASE_CLEAR) ^^^ 32) ∨
        p = (((stop.headD (0, 0)).1 &&& CASE_CLEAR) ^^^ 32,
          (stop.headD (0, 0)).2 &&& CASE_CLEAR) ∨
        p = (((stop.headD (0, 0)).1 &&& CASE_CLEAR) ^^^ 32,
          ((stop.headD (0, 0)).2 &&& CASE_CLEAR) ^^^ 32) := by
      intro p hp
      obtain ⟨hpc1, hpc2⟩ := hall p hp
      obtain ⟨hp1, hp2⟩ := hb p hp
      rcases byte_caseClear_cases p.1 hp1 with e1 | e1 <;>
        rcases byte_caseClear_cases p.2 hp2 with e2 | e2
      · exact Or.inl (Prod.ext_iff.mpr ⟨e1.trans hpc1, e2.trans hpc2⟩)
      · exact Or.inr (Or.inl (Prod.ext_iff.mpr ⟨e1.trans hpc1,
          e2.trans (congrArg (fun t => t ^^^ 32) hpc2)⟩))
      · exact Or.inr (Or.inr (Or.inl (Prod.ext_iff.mpr
          ⟨e1.trans (congrArg (fun t => t ^^^ 32) hpc1),
            e2.trans hpc2⟩)))
      · exact Or.inr (Or.inr (Or.inr (Prod.ext_iff.mpr
          ⟨e1.trans (congrArg (fun t => t ^^^ 32) hpc1),
            e2.trans (congrArg (fun t => t ^^^ 32) hpc2)⟩)))
    exact subset_four_perm_complete stop _ _ hnd hlen
      (xor32_ne _ hxlt) (xor32_ne _ hylt) hsub
  · rintro ⟨x, y, hxlt, hylt, hlen, hmem⟩
    have hnil : stop ≠ [] := by
      intro h
      rw [h] at hlen
      simp at hlen
    have h0mem : stop.headD (0, 0) ∈ stop := headD_mem _ _ hnil
    have hcc : ∀ q ∈ stop, q.1 &&& CASE_CLEAR = x &&& CASE_CLEAR ∧
        q.2 &&& CASE_CLEAR = y &&& CASE_CLEAR := by
      intro q hq
      rcases (hmem q).mp hq with h | h | h | h <;> subst h <;>
        exact ⟨by first | rfl | exact caseClear_xor32 x hxlt,
          by first | rfl | exact caseClear_xor32 y hylt⟩
    unfold isCaselessDouble
    dsimp only
    have hb4 : (stop.length != 4) = false := by
      rw [hlen]
      rfl
    simp only [hb4, Bool.false_eq_true, if_false]
    rw [List.all_eq_true]
    intro p hp
    obtain ⟨hq1, hq2⟩ := hcc p hp
    obtain ⟨h01, h02⟩ := hcc _ h0mem
    rw [Bool.and_eq_true, beq_iff_eq, beq_iff_eq]
    exact ⟨hq1.trans h01.symm, hq2.trans h02.symm⟩

/-- C4 witness: the four case permutations of "AB" satisfy the predicate and
the characterization instantiates at `x = 0x41`, `y = 0x42`. -/
theorem C4_isCaselessDouble_iff_witness :
    ∃ x y, x < 256 ∧ y < 256 ∧
      ([(0x41, 0x42), (0x41, 0x62), (0x61, 0x42), (0x61, 0x62)] :
        List (Nat × Nat)).length = 4 ∧
      ∀ p : Nat × Nat,
        p ∈ ([(0x41, 0x42), (0x41, 0x62), (0x61, 0x42), (0x61, 0x62)] :
          List (Nat × Nat)) ↔
        (p = (x, y) ∨ p = (x, y ^^^ 32) ∨ p = (x ^^^ 32, y) ∨
          p = (x ^^^ 32, y ^^^ 32)) :=
  (C4_isCaselessDouble_iff
    [(0x41, 0x42), (0x41, 0x62), (0x61, 0x42), (0x61, 0x62)]
    (by decide) (by decide)).mp (by decide)

end AccelCompile
